import Mathlib

/-!
Verification of the price-normalization and cache-resolution pipelines of
`src/scripts/fetch-prices.js` (iCloud+ price collector and query tool).

The JavaScript is shallowly embedded: JS numbers are modelled as exact
rationals (`ℚ`), `Math.round x` as `⌊x + 1/2⌋` (round half toward +∞),
JS falsiness of a number as "equal to 0", of a string as "empty", and the
ES2019-stable `Array.prototype.sort` with the comparator
`keyA - keyB` as `List.insertionSort` over the total preorder
`key a ≤ key b` (any stable sort agrees with it). Fallible operations
(`JSON.parse`, `readFile`, `curl`) are modelled with `Option`.
-/

namespace ICloudPricing

/-! ### Price-string parsing (`parsePrice`, fetch-prices.js lines 95-109) -/

/-- The character class kept by `priceStr.replace(/[^\d.,]/g, '')`:
ASCII digits, comma and dot. -/
def keepChar (c : Char) : Bool := c.isDigit || c == ',' || c == '.'

/-- The substitution `.replace(/,/g, '.')`. -/
def commaToDot (c : Char) : Char := if c == ',' then '.' else c

/-- `cleaned` in `parsePrice`: strip everything but digits, comma, dot,
then turn commas into dots. -/
def cleanPrice (s : String) : List Char := (s.data.filter keepChar).map commaToDot

/-- JS `split('.')` on a list of characters: always returns at least one
(possibly empty) segment, with one extra segment per dot. -/
def splitDot : List Char → List (List Char)
  | [] => [[]]
  | c :: cs =>
    let rest := splitDot cs
    if c == '.' then [] :: rest
    else
      match rest with
      | seg :: segs => (c :: seg) :: segs
      | [] => [[c]]

/-- Numeric value of a list of ASCII digits (empty list gives 0),
as computed by positional reading. -/
def digitsVal (cs : List Char) : ℕ :=
  cs.foldl (fun n c => n * 10 + (c.toNat - '0'.toNat)) 0

/-- Value of a fractional part: `fracVal "56" = 56/100`. -/
def fracVal (cs : List Char) : ℚ :=
  (digitsVal cs : ℚ) / (10 : ℚ) ^ cs.length

/-- JS `parseFloat` restricted to the strings `parsePrice` feeds it
(characters are digits or dots only): `none` models `NaN`.
`parseFloat` reads the longest prefix of the form `digits[.digits]`,
so only the first two dot-separated segments matter, and the result is
`NaN` exactly when both of them are empty. -/
def parseFloatSegs : List (List Char) → Option ℚ
  | [] => none
  | [intPart] => if intPart.isEmpty then none else some (digitsVal intPart)
  | intPart :: fracPart :: _ =>
    if intPart.isEmpty && fracPart.isEmpty then none
    else some ((digitsVal intPart : ℚ) + fracVal fracPart)

/-- `parseFloat` on a digits-and-dots character list. -/
def parseFloatDD (cs : List Char) : Option ℚ := parseFloatSegs (splitDot cs)

/-- `parsePrice` (fetch-prices.js lines 95-109): clean the string, and if the
cleaned string has more than two dot-separated segments, join all but the
last segment as the integer part (`parts.pop()` / `parts.join('')`) with the
last as the fractional part. -/
def parsePrice (s : String) : Option ℚ :=
  let cleaned := cleanPrice s
  let parts := splitDot cleaned
  if 2 < parts.length then
    match parts.getLast? with
    | some last => parseFloatDD (parts.dropLast.flatten ++ '.' :: last)
    | none => none
  else parseFloatDD cleaned

/-! ### Currency conversion (`convertToCNY`, lines 343-358, and the
rounding applied in `main`, line 399) -/

/-- Rate table: JS object mapping currency code to number, modelled as an
association list (`rates[c]` is `List.lookup c`). -/
abbrev RateTable := List (String × ℚ)

/-- `convertToCNY` (lines 343-358). A missing rate is `none`; a present
rate of numeric value 0 is falsy in JS (`!usdRate`), so it is also passed
through unconverted. -/
def convertToCNY (price : ℚ) (currency : String) (rates : RateTable) : ℚ :=
  if currency = "CNY" then price
  else
    match rates.lookup currency, rates.lookup "CNY" with
    | some usdRate, some cnyRate =>
      if usdRate = 0 ∨ cnyRate = 0 then price
      else price / usdRate * cnyRate
    | _, _ => price

/-- JS `Math.round`: round half toward positive infinity. -/
def jsRound (x : ℚ) : ℤ := ⌊x + 1 / 2⌋

/-- `Math.round(x * 100) / 100` (line 399). -/
def round2 (x : ℚ) : ℚ := (jsRound (x * 100) : ℚ) / 100

/-- Round half away from zero, the rounding mode named by the spec. -/
def roundHalfAwayFromZero (x : ℚ) : ℤ :=
  if 0 ≤ x then ⌊x + 1 / 2⌋ else ⌈x - 1 / 2⌉

/-- A plan as scraped (`{ Name, Price }`). -/
structure RawPlan where
  Name : String
  Price : ℚ
deriving DecidableEq

/-- A normalized plan (`{ Name, Price, PriceInCNY }`). -/
structure Plan where
  Name : String
  Price : ℚ
  PriceInCNY : ℚ
deriving DecidableEq

/-- The per-plan normalization step of `main` (lines 397-400):
`{ ...plan, PriceInCNY: Math.round(convertToCNY(plan.Price, currency, rates) * 100) / 100 }`. -/
def normalizePlan (rates : RateTable) (currency : String) (p : RawPlan) : Plan :=
  { Name := p.Name, Price := p.Price
    PriceInCNY := round2 (convertToCNY p.Price currency rates) }

/-! ### Regions and the two sort comparators (lines 404-409 and 660-668) -/

/-- A normalized region record. -/
structure Region where
  CountryISO : String
  Country : String
  Currency : String
  Plans : List Plan
deriving DecidableEq

/-- `region.Plans.find(p => p.Name === tier)`. -/
def findTierPlan (tier : String) (r : Region) : Option Plan :=
  r.Plans.find? (fun p => p.Name == tier)

/-- The benchmark-tier lookup `a.Plans.find(p => p.Name === '50GB')`. -/
def find50GB (r : Region) : Option Plan := findTierPlan "50GB" r

/-- Sort key of the Normalizer's dataset sort (lines 405-409):
`a.Plans.find(p => p.Name === '50GB')?.PriceInCNY || Infinity`.
Because `||` tests JS falsiness, a present plan whose `PriceInCNY` is 0
also yields `Infinity`. -/
def normSortKey (r : Region) : WithTop ℚ :=
  match find50GB r with
  | some p => if p.PriceInCNY = 0 then ⊤ else (p.PriceInCNY : WithTop ℚ)
  | none => ⊤

/-- Sort key of the Query Engine's `sortByPrice` (lines 660-668):
`planA ? planA.PriceInCNY : Infinity`. Here only a missing plan yields
`Infinity`; a zero price is kept. -/
def querySortKey (tier : String) (r : Region) : WithTop ℚ :=
  match findTierPlan tier r with
  | some p => (p.PriceInCNY : WithTop ℚ)
  | none => ⊤

/-- The spec's ranking key for claim C1: the benchmark tier's
reference-currency price, with only a *missing* tier treated as `+∞`. -/
def specSortKey (r : Region) : WithTop ℚ :=
  match find50GB r with
  | some p => (p.PriceInCNY : WithTop ℚ)
  | none => ⊤

/-- The total preorder induced by the Normalizer's comparator
`priceA - priceB` (both keys `Infinity` compare equal). -/
def normRel (a b : Region) : Prop := normSortKey a ≤ normSortKey b

/-- The total preorder induced by the Query Engine's comparator. -/
def queryRel (tier : String) (a b : Region) : Prop :=
  querySortKey tier a ≤ querySortKey tier b

instance : DecidableRel normRel :=
  fun a b => inferInstanceAs (Decidable (normSortKey a ≤ normSortKey b))

instance : IsTotal Region normRel :=
  ⟨fun a b => le_total (normSortKey a) (normSortKey b)⟩

instance : IsTrans Region normRel :=
  ⟨fun _ _ _ hab hbc => le_trans hab hbc⟩

instance (tier : String) : DecidableRel (queryRel tier) :=
  fun a b => inferInstanceAs (Decidable (querySortKey tier a ≤ querySortKey tier b))

instance (tier : String) : IsTotal Region (queryRel tier) :=
  ⟨fun a b => le_total (querySortKey tier a) (querySortKey tier b)⟩

instance (tier : String) : IsTrans Region (queryRel tier) :=
  ⟨fun _ _ _ hab hbc => le_trans hab hbc⟩

/-- The Normalizer's dataset sort, `result.regions.sort(...)` (lines
404-409), modelled as the stable sort by its comparator. -/
def sortRegions (rs : List Region) : List Region := rs.insertionSort normRel

/-- The Query Engine's `sortByPrice(regions, planName)` (lines 660-668). -/
def sortByPrice (rs : List Region) (tier : String) : List Region :=
  rs.insertionSort (queryRel tier)

/-! ### Cache resolver (`getPriceData`, fetch-prices.js lines 587-643)

The resolver's environment: `cacheMtime` is `getFileMtime(cachePath)`,
which returns 0 when the file is missing or unreadable (so "the cache file
exists" is encoded as `cacheMtime ≠ 0`, matching the JS truthiness test
`if (mtime && ...)`); each content field is `none` when the corresponding
read (`readFile` / `fetchRemote`) returns `null`; `parse` models
`JSON.parse`, with `none` for a thrown `SyntaxError`. The cache writes
performed by the local and remote steps happen only immediately before a
`return`, so they cannot influence the resolution result and are not part
of the state. -/
structure ResolveEnv (α : Type) where
  now : ℤ
  cacheMtime : ℤ
  cacheContent : Option String
  localContent : Option String
  remoteContent : Option String
  parse : String → Option α

/-- `CONFIG.cacheTTL = 3600 * 1000` milliseconds. -/
def cacheTTL : ℤ := 3600 * 1000

/-- The value a `readFile`-then-`JSON.parse` step yields: `null` or an
empty string is falsy (`if (cached)` / `if (local)` / `if (remote)`), and
a parse error is caught; in every such case the step yields nothing and
the resolver falls through. -/
def readParsed {α : Type} (content : Option String) (parse : String → Option α) :
    Option α :=
  match content with
  | some s => if s = "" then none else parse s
  | none => none

/-- Step 1 of `getPriceData` (lines 594-605): the fresh-cache check
`if (mtime && (now - mtime) < CONFIG.cacheTTL)`. -/
def freshCacheHit {α : Type} (env : ResolveEnv α) : Option α :=
  if env.cacheMtime ≠ 0 ∧ env.now - env.cacheMtime < cacheTTL then
    readParsed env.cacheContent env.parse
  else none

/-- Resolver outcome: the returned data plus whether the bundled local
copy was read and whether the remote fetch was invoked. -/
structure ResolveOut (α : Type) where
  result : Option α
  localConsulted : Bool
  remoteCalled : Bool
deriving DecidableEq

/-- Steps 2-4 of `getPriceData` (lines 607-642): bundled local copy, then
remote fetch, then stale re-read of the cache file, each attempted only if
the previous step yielded nothing. -/
def resolveAfterFresh {α : Type} (env : ResolveEnv α) : ResolveOut α :=
  match readParsed env.localContent env.parse with
  | some d => ⟨some d, true, false⟩
  | none =>
    match readParsed env.remoteContent env.parse with
    | some d => ⟨some d, true, true⟩
    | none => ⟨readParsed env.cacheContent env.parse, true, true⟩

/-- `getPriceData` (lines 587-643): fresh cache, else the remaining chain;
`result = none` is the `return null` total-failure sentinel. -/
def getPriceData {α : Type} (env : ResolveEnv α) : ResolveOut α :=
  match freshCacheHit env with
  | some d => ⟨some d, false, false⟩
  | none => resolveAfterFresh env

/-! ### Query-argument tokenization (`run`, lines 763-778) -/

/-- `PLAN_TYPES = ['50gb', '200gb', '2tb', '6tb', '12tb']`. -/
def PLAN_TYPES : List String := ["50gb", "200gb", "2tb", "6tb", "12tb"]

/-- One step of the `parts.forEach` loop (lines 767-773): a tier token
overwrites `selectedPlan` (uppercased), any other token of length at least
2 overwrites `searchQuery`, anything else is ignored. -/
def tokenStep (acc : Option String × Option String) (part : String) :
    Option String × Option String :=
  if PLAN_TYPES.contains part then (some part.toUpper, acc.2)
  else if 2 ≤ part.length then (acc.1, some part)
  else acc

/-- The `(selectedPlan, searchQuery)` pair after the `forEach` loop. -/
def parseQueryTokens (parts : List String) : Option String × Option String :=
  parts.foldl tokenStep (none, none)

/-- `selectedPlan` with the default applied (lines 776-778). -/
def selectedPlanOf (parts : List String) : String :=
  (parseQueryTokens parts).1.getD "50GB"

/-- The region filter token (`searchQuery`). -/
def searchQueryOf (parts : List String) : Option String :=
  (parseQueryTokens parts).2

/-! ### Ranked query output (`run`, lines 811-820) -/

/-- The `sorted.forEach((region, idx) => ...)` loop body (lines 814-819):
a region is emitted only if it has a plan named `tier`, with rank
`idx + 1`. -/
def rankedAux (tier : String) : ℕ → List Region → List (Region × Plan × ℕ)
  | _, [] => []
  | idx, r :: rest =>
    match findTierPlan tier r with
    | some p => (r, p, idx + 1) :: rankedAux tier (idx + 1) rest
    | none => rankedAux tier (idx + 1) rest

/-- The ranked query path: sort the (filtered) regions by the selected
tier's price, then emit one item per region that offers the tier. -/
def rankedItems (rs : List Region) (tier : String) : List (Region × Plan × ℕ) :=
  rankedAux tier 0 (sortByPrice rs tier)

/-! ### Helper lemmas about rounding and conversion -/

theorem jsRound_intCast (n : ℤ) : jsRound ((n : ℚ)) = n := by
  unfold jsRound
  rw [Int.floor_int_add]
  have h : ⌊(1 / 2 : ℚ)⌋ = 0 := by
    rw [Int.floor_eq_iff]
    norm_num
  rw [h, add_zero]

theorem round2_int_div (n : ℤ) : round2 ((n : ℚ) / 100) = (n : ℚ) / 100 := by
  unfold round2
  rw [div_mul_cancel₀ (b := (100 : ℚ)) _ (by norm_num), jsRound_intCast]

theorem convertToCNY_ref (price : ℚ) (rates : RateTable) :
    convertToCNY price "CNY" rates = price := by
  simp [convertToCNY]

theorem convertToCNY_missing (price : ℚ) (currency : String) (rates : RateTable)
    (h : rates.lookup currency = none ∨ rates.lookup "CNY" = none) :
    convertToCNY price currency rates = price := by
  by_cases hcny : currency = "CNY"
  · simp [convertToCNY, hcny]
  · cases h1 : rates.lookup currency with
    | none => cases h2 : rates.lookup "CNY" <;> simp [convertToCNY, hcny, h1, h2]
    | some u =>
      cases h2 : rates.lookup "CNY" with
      | none => simp [convertToCNY, hcny, h1, h2]
      | some c =>
        rcases h with h | h
        · rw [h1] at h; cases h
        · rw [h2] at h; cases h

/-! ### Claims C2, C6, C7: the conversion step -/

/-- C2. For a plan whose region currency differs from the reference
currency (CNY), given positive rates for that currency and for CNY, the
derived `PriceInCNY` equals `(price / rate[currency]) * rate[CNY]` rounded
to 2 fraction digits by round-half-away-from-zero on the scaled integer
(`round(x*100)/100`). (`Math.round` rounds half toward `+∞`, which on the
non-negative values arising here agrees with half-away-from-zero.) -/
theorem conversion_formula (rates : RateTable) (currency : String) (p : RawPlan)
    (u c : ℚ) (hcur : currency ≠ "CNY")
    (hu : rates.lookup currency = some u) (hu0 : 0 < u)
    (hc : rates.lookup "CNY" = some c) (hc0 : 0 < c) (hp : 0 ≤ p.Price) :
    (normalizePlan rates currency p).PriceInCNY
      = (roundHalfAwayFromZero (p.Price / u * c * 100) : ℚ) / 100 := by
  have hconv : convertToCNY p.Price currency rates = p.Price / u * c := by
    simp only [convertToCNY, if_neg hcur, hu, hc]
    rw [if_neg]
    push_neg
    exact ⟨ne_of_gt hu0, ne_of_gt hc0⟩
  have hx : 0 ≤ p.Price / u * c * 100 := by positivity
  show round2 (convertToCNY p.Price currency rates)
      = (roundHalfAwayFromZero (p.Price / u * c * 100) : ℚ) / 100
  rw [hconv]
  unfold round2 jsRound roundHalfAwayFromZero
  rw [if_pos hx]

/-- Witness for C2 at `price = 1`, `rate[EUR] = 2`, `rate[CNY] = 3`. -/
theorem conversion_formula_witness :
    (normalizePlan [("EUR", 2), ("CNY", 3)] "EUR" ⟨"50GB", 1⟩).PriceInCNY
      = (roundHalfAwayFromZero ((1 : ℚ) / 2 * 3 * 100) : ℚ) / 100 :=
  conversion_formula [("EUR", 2), ("CNY", 3)] "EUR" ⟨"50GB", 1⟩ 2 3
    (by decide) rfl (by norm_num) rfl (by norm_num) (by norm_num)

/-- C6 as stated is false: when the region currency is absent from the
rate table, `convertToCNY` does return the price unchanged, but the
*stored* `PriceInCNY` is that price rounded to 2 fraction digits, not the
original price. At `price = 0.015`, currency `"EUR"`, rate table
`{CNY: 7.2}` (no EUR entry), the stored value is `0.02 ≠ 0.015`. -/
theorem missing_rate_rounding_counterexample :
    ([("CNY", (72 : ℚ) / 10)] : RateTable).lookup "EUR" = none
    ∧ (normalizePlan [("CNY", 72 / 10)] "EUR" ⟨"50GB", 3 / 200⟩).PriceInCNY = 1 / 50
    ∧ ((1 : ℚ) / 50) ≠ 3 / 200 := by
  refine ⟨rfl, ?_, by norm_num⟩
  have h : (normalizePlan [("CNY", 72 / 10)] "EUR" ⟨"50GB", 3 / 200⟩).PriceInCNY
      = ((⌊(3 / 200 : ℚ) * 100 + 1 / 2⌋ : ℚ) / 100) := rfl
  rw [h]
  have h2 : (3 / 200 : ℚ) * 100 + 1 / 2 = ((2 : ℤ) : ℚ) := by norm_num
  rw [h2, Int.floor_intCast]
  norm_num

/-- C6, amended. For a plan whose region currency is absent from the rate
table (or whose CNY rate is absent), `convertToCNY` returns the original
local price unchanged (and, being a total function, never throws); the
stored `PriceInCNY` is that original price rounded to 2 fraction digits
(`Math.round(price*100)/100`), which equals the original price exactly
whenever the price has at most 2 fraction digits. -/
theorem missing_rate_passthrough (rates : RateTable) (currency : String) (p : RawPlan)
    (h : rates.lookup currency = none ∨ rates.lookup "CNY" = none) :
    convertToCNY p.Price currency rates = p.Price
    ∧ (normalizePlan rates currency p).PriceInCNY = round2 p.Price
    ∧ ∀ n : ℤ, p.Price = (n : ℚ) / 100
        → (normalizePlan rates currency p).PriceInCNY = p.Price := by
  have hconv := convertToCNY_missing p.Price currency rates h
  refine ⟨hconv, ?_, ?_⟩
  · show round2 (convertToCNY p.Price currency rates) = round2 p.Price
    rw [hconv]
  · intro n hn
    show round2 (convertToCNY p.Price currency rates) = p.Price
    rw [hconv, hn, round2_int_div]

/-- Witness for C6 at `price = 5`, currency `"XXX"` absent from the
table. -/
theorem missing_rate_passthrough_witness :
    (normalizePlan [("CNY", 7)] "XXX" ⟨"50GB", 5⟩).PriceInCNY = 5 := by
  have h := (missing_rate_passthrough [("CNY", 7)] "XXX" ⟨"50GB", 5⟩
    (Or.inl rfl)).2.2 500 (by norm_num)
  simpa using h

/-- C7 as stated is false: for a CNY-priced plan the conversion function
is the identity, but `main` still applies `Math.round(price*100)/100`, so
a price with more than 2 fraction digits drifts. At `price = 0.025` the
stored `PriceInCNY` is `0.03 ≠ 0.025`. -/
theorem reference_currency_rounding_counterexample :
    (normalizePlan [] "CNY" ⟨"50GB", 1 / 40⟩).PriceInCNY = 3 / 100
    ∧ ((3 : ℚ) / 100) ≠ 1 / 40 := by
  refine ⟨?_, by norm_num⟩
  have h : (normalizePlan [] "CNY" ⟨"50GB", 1 / 40⟩).PriceInCNY
      = ((⌊(1 / 40 : ℚ) * 100 + 1 / 2⌋ : ℚ) / 100) := rfl
  rw [h]
  have h2 : (1 / 40 : ℚ) * 100 + 1 / 2 = ((3 : ℤ) : ℚ) := by norm_num
  rw [h2, Int.floor_intCast]
  norm_num

/-- C7, amended. For a plan whose region currency equals the reference
currency (CNY), `convertToCNY` returns the price unchanged, and the stored
`PriceInCNY` is that price rounded to 2 fraction digits
(`Math.round(price*100)/100`); it equals the original price exactly
whenever the price has at most 2 fraction digits, but not for every
non-negative price. -/
theorem reference_currency_identity (rates : RateTable) (p : RawPlan)
    (hp : 0 ≤ p.Price) :
    convertToCNY p.Price "CNY" rates = p.Price
    ∧ (normalizePlan rates "CNY" p).PriceInCNY = round2 p.Price
    ∧ ∀ n : ℤ, p.Price = (n : ℚ) / 100
        → (normalizePlan rates "CNY" p).PriceInCNY = p.Price := by
  have hconv := convertToCNY_ref p.Price rates
  refine ⟨hconv, ?_, ?_⟩
  · show round2 (convertToCNY p.Price "CNY" rates) = round2 p.Price
    rw [hconv]
  · intro n hn
    show round2 (convertToCNY p.Price "CNY" rates) = p.Price
    rw [hconv, hn, round2_int_div]

/-- Witness for C7 at `price = 6` (the fallback China 50GB price). -/
theorem reference_currency_identity_witness :
    (normalizePlan [] "CNY" ⟨"50GB", 6⟩).PriceInCNY = 6 := by
  have h := (reference_currency_identity [] ⟨"50GB", 6⟩ (by norm_num)).2.2
    600 (by norm_num)
  simpa using h

/-! ### Claims C3, C4: the cache resolver -/

/-- C3. If the fresh-cache read, the bundled local copy, the remote fetch
and the stale-cache re-read all fail to yield parseable dataset JSON
(`readParsed … = none` is precisely "the read was falsy or the parse
threw"), then `getPriceData` returns the `null` sentinel. Every failure is
absorbed by the step that produced it (the embedding is a total function:
no exception escapes), and only causes fall-through to the next step. -/
theorem resolver_total_failure {α : Type} (env : ResolveEnv α)
    (hcache : readParsed env.cacheContent env.parse = none)
    (hlocal : readParsed env.localContent env.parse = none)
    (hremote : readParsed env.remoteContent env.parse = none) :
    (getPriceData env).result = none := by
  unfold getPriceData freshCacheHit resolveAfterFresh
  rw [hcache, hlocal, hremote, ite_self]

/-- Witness for C3: the empty environment in which every source is
missing. -/
theorem resolver_total_failure_witness :
    (getPriceData ⟨0, 0, none, none, none, fun _ : String => (none : Option ℕ)⟩).result
      = none :=
  resolver_total_failure _ rfl rfl rfl

/-- C4. If the cache file exists (`mtime ≠ 0`), `now - mtime < TTL`, and
its content is non-empty: when the content parses, `getPriceData` returns
exactly the parsed content, without consulting the bundled local copy and
without invoking the remote fetch; when the parse fails, resolution falls
through to the rest of the chain (local copy, remote fetch, stale cache)
instead of failing. -/
theorem resolver_fresh_cache {α : Type} (env : ResolveEnv α) (s : String)
    (hm : env.cacheMtime ≠ 0) (hf : env.now - env.cacheMtime < cacheTTL)
    (hc : env.cacheContent = some s) (hs : s ≠ "") :
    (∀ d : α, env.parse s = some d
        → getPriceData env = ⟨some d, false, false⟩)
    ∧ (env.parse s = none → getPriceData env = resolveAfterFresh env) := by
  have hfresh : freshCacheHit env = env.parse s := by
    unfold freshCacheHit
    rw [if_pos ⟨hm, hf⟩, hc]
    show (if s = "" then none else env.parse s) = env.parse s
    rw [if_neg hs]
  constructor
  · intro d hd
    unfold getPriceData
    rw [hfresh, hd]
  · intro hn
    unfold getPriceData
    rw [hfresh, hn]

/-- Witness for C4: a fresh, valid cache is returned untouched with no
local read and no remote call. -/
theorem resolver_fresh_cache_witness :
    getPriceData ⟨100, 50, some "d", none, none,
        fun s => if s = "d" then some (7 : ℕ) else none⟩
      = ⟨some 7, false, false⟩ :=
  (resolver_fresh_cache _ "d" (by decide) (by decide) rfl (by decide)).1 7 (by simp)

/-! ### Claim C5: price-string parsing -/

/-- C5. `parsePrice` depends only on the digits, commas and dots of its
input (all other characters are stripped first), and on the spec's
examples it yields `parsePrice "$0.99" = 0.99`,
`parsePrice "1.234,56" = 1234.56` and `parsePrice "¥198" = 198`,
with the European-format rule joining all but the last dot-separated
segment of the cleaned string as the integer part. -/
theorem parsePrice_spec :
    (∀ s : String, parsePrice s = parsePrice (String.mk (s.data.filter keepChar)))
    ∧ parsePrice "$0.99" = some (99 / 100)
    ∧ parsePrice "1.234,56" = some (123456 / 100)
    ∧ parsePrice "¥198" = some 198 := by
  refine ⟨?_, ?_, ?_, ?_⟩
  · intro s
    have h : cleanPrice (String.mk (s.data.filter keepChar)) = cleanPrice s := by
      show ((s.data.filter keepChar).filter keepChar).map commaToDot
          = (s.data.filter keepChar).map commaToDot
      rw [List.filter_filter]
      simp
    simp only [parsePrice, h]
  · have h : parsePrice "$0.99"
        = some (((0 : ℕ) : ℚ) + ((99 : ℕ) : ℚ) / (10 : ℚ) ^ 2) := rfl
    rw [h]; norm_num
  · have h : parsePrice "1.234,56"
        = some (((1234 : ℕ) : ℚ) + ((56 : ℕ) : ℚ) / (10 : ℚ) ^ 2) := rfl
    rw [h]; norm_num
  · have h : parsePrice "¥198" = some (((198 : ℕ) : ℚ)) := rfl
    rw [h]; norm_num

/-! ### Claim C10: query-argument tokenization -/

/-- Auxiliary: `getLast?` of a cons, in `Option.or` form. -/
theorem getLast?_cons_or {α : Type} (a : α) (l : List α) :
    (a :: l).getLast? = l.getLast?.or (some a) := by
  cases l with
  | nil => simp
  | cons b t =>
    rw [List.getLast?_cons_cons]
    cases h : (b :: t).getLast? with
    | none => simp at h
    | some x => rfl

/-- The three possible outcomes of one `forEach` step. -/
theorem tokenStep_tier (acc : Option String × Option String) (p : String)
    (hp : PLAN_TYPES.contains p = true) :
    tokenStep acc p = (some p.toUpper, acc.2) := by
  unfold tokenStep
  rw [if_pos hp]

theorem tokenStep_region (acc : Option String × Option String) (p : String)
    (hp : PLAN_TYPES.contains p = false) (hlen : 2 ≤ p.length) :
    tokenStep acc p = (acc.1, some p) := by
  unfold tokenStep
  rw [if_neg (by rw [hp]; intro h; cases h), if_pos hlen]

theorem tokenStep_skip (acc : Option String × Option String) (p : String)
    (hp : PLAN_TYPES.contains p = false) (hlen : ¬2 ≤ p.length) :
    tokenStep acc p = acc := by
  unfold tokenStep
  rw [if_neg (by rw [hp]; intro h; cases h), if_neg hlen]

/-- The first component of the token fold: the last tier token wins,
uppercased. -/
theorem tokenFold_fst : ∀ (parts : List String) (acc : Option String × Option String),
    (parts.foldl tokenStep acc).1
      = (((parts.filter (fun p => PLAN_TYPES.contains p)).getLast?).map
          String.toUpper).or acc.1
  | [], acc => by simp
  | p :: rest, acc => by
    rw [List.foldl_cons, tokenFold_fst rest]
    cases hp : PLAN_TYPES.contains p with
    | true =>
      rw [tokenStep_tier acc p hp, List.filter_cons_of_pos hp, getLast?_cons_or,
        Option.map_or', Option.map_some', Option.or_assoc, Option.or_some]
    | false =>
      rw [List.filter_cons_of_neg (by rw [hp]; intro h; cases h)]
      by_cases hlen : 2 ≤ p.length
      · rw [tokenStep_region acc p hp hlen]
      · rw [tokenStep_skip acc p hp hlen]

/-- The Boolean test for a region-filter candidate token. -/
def regionTok (p : String) : Bool := !PLAN_TYPES.contains p && decide (2 ≤ p.length)

/-- The second component of the token fold: the last non-tier token of
length at least 2 wins. -/
theorem tokenFold_snd : ∀ (parts : List String) (acc : Option String × Option String),
    (parts.foldl tokenStep acc).2
      = ((parts.filter regionTok).getLast?).or acc.2
  | [], acc => by simp
  | p :: rest, acc => by
    rw [List.foldl_cons, tokenFold_snd rest]
    cases hp : PLAN_TYPES.contains p with
    | true =>
      have hcond : regionTok p = false := by
        unfold regionTok
        rw [hp]
        rfl
      rw [List.filter_cons_of_neg (by rw [hcond]; intro h; cases h),
        tokenStep_tier acc p hp]
    | false =>
      by_cases hlen : 2 ≤ p.length
      · have hcond : regionTok p = true := by
          unfold regionTok
          rw [hp, decide_eq_true hlen]
          rfl
        rw [List.filter_cons_of_pos hcond, getLast?_cons_or, Option.or_assoc,
          Option.or_some, tokenStep_region acc p hp hlen]
      · have hcond : regionTok p = false := by
          unfold regionTok
          rw [hp, decide_eq_false hlen]
          rfl
        rw [List.filter_cons_of_neg (by rw [hcond]; intro h; cases h),
          tokenStep_skip acc p hp hlen]

/-- C10. In query tokenization, a token outside the tier vocabulary
`['50gb','200gb','2tb','6tb','12tb']` becomes the region filter only if
its length is at least 2 (single-character region tokens are ignored),
the last such candidate in argument order wins, and when no tier token
appears the selected tier defaults to `"50GB"` (the last tier token,
uppercased, otherwise). -/
theorem query_tokenization (parts : List String) :
    searchQueryOf parts = (parts.filter regionTok).getLast?
    ∧ selectedPlanOf parts
      = (((parts.filter (fun p => PLAN_TYPES.contains p)).getLast?).map
          String.toUpper).getD "50GB" := by
  constructor
  · show (parts.foldl tokenStep (none, none)).2 = _
    rw [tokenFold_snd]
    cases (parts.filter regionTok).getLast? <;> rfl
  · show ((parts.foldl tokenStep (none, none)).1).getD "50GB" = _
    rw [tokenFold_fst]
    cases ((parts.filter (fun p => PLAN_TYPES.contains p)).getLast?).map
        String.toUpper <;> rfl

/-! ### Claims C1, C8, C9: sorting and ranked output -/

/-- Stability of the modelled sort, filter form: for any key value, the
elements carrying that key appear in the sorted output in their original
relative order. -/
theorem insertionSort_stable_filter {r : Region → Region → Prop} [DecidableRel r]
    (key : Region → WithTop ℚ) (hr : ∀ a b, r a b ↔ key a ≤ key b)
    (rs : List Region) (k : WithTop ℚ) :
    (rs.insertionSort r).filter (fun x => decide (key x = k))
      = rs.filter (fun x => decide (key x = k)) := by
  have hsub : List.Sublist (rs.filter (fun x => decide (key x = k)))
      (rs.insertionSort r) := by
    apply List.sublist_insertionSort
    · apply List.pairwise_of_forall_mem_list
      intro a ha b hb
      have ha' : key a = k := of_decide_eq_true (List.mem_filter.mp ha).2
      have hb' : key b = k := of_decide_eq_true (List.mem_filter.mp hb).2
      rw [hr, ha', hb']
    · exact List.filter_sublist rs
  have hself : (rs.filter (fun x => decide (key x = k))).filter
      (fun x => decide (key x = k)) = rs.filter (fun x => decide (key x = k)) := by
    rw [List.filter_eq_self]
    intro a ha
    exact (List.mem_filter.mp ha).2
  have hsub2 : List.Sublist (rs.filter (fun x => decide (key x = k)))
      ((rs.insertionSort r).filter (fun x => decide (key x = k))) :=
    hself ▸ hsub.filter (fun x => decide (key x = k))
  have hlen : ((rs.insertionSort r).filter (fun x => decide (key x = k))).length
      = (rs.filter (fun x => decide (key x = k))).length :=
    ((List.perm_insertionSort r rs).filter _).length_eq
  exact (hsub2.eq_of_length hlen.symm).symm

/-- A region used in the counterexamples: its 50GB plan is present but
priced at 0, which the Normalizer's `|| Infinity` comparator treats as a
missing plan. -/
def zeroPriceRegion : Region := ⟨"XX", "Zeroland", "USD", [⟨"50GB", 0, 0⟩]⟩

/-- A region whose 50GB plan costs 5 in the reference currency. -/
def fivePriceRegion : Region := ⟨"YY", "Fiveland", "USD", [⟨"50GB", 5, 5⟩]⟩

/-- C1 as stated is false: both regions have a 50GB price (0 and 5), so
the claimed rule (ascending by that price, only *missing* prices last)
would order the zero-priced region first; the code's `|| Infinity`
comparator treats the zero price as missing and puts that region last. -/
theorem normalizer_ranking_counterexample :
    sortRegions [zeroPriceRegion, fivePriceRegion]
      = [fivePriceRegion, zeroPriceRegion]
    ∧ specSortKey zeroPriceRegion < specSortKey fivePriceRegion
    ∧ ¬ List.Pairwise (fun a b => specSortKey a ≤ specSortKey b)
        (sortRegions [zeroPriceRegion, fivePriceRegion]) := by
  have heq : sortRegions [zeroPriceRegion, fivePriceRegion]
      = [fivePriceRegion, zeroPriceRegion] := by decide
  refine ⟨heq, by decide, ?_⟩
  rw [heq]
  intro hpair
  have h5 : specSortKey fivePriceRegion ≤ specSortKey zeroPriceRegion :=
    List.rel_of_pairwise_cons hpair (List.mem_cons_self _ _)
  exact absurd h5 (by decide)

/-- C1, amended. The persisted dataset's regions are the input regions
stably sorted ascending by `normSortKey`: the 50GB plan's reference
price, where a region lacking the 50GB tier *or whose 50GB price is 0*
(JS falsiness of `|| Infinity`) is treated as positive infinity and
placed after all other regions; the original relative order is preserved
among regions with equal keys (in particular among the missing-or-zero
ones). -/
theorem normalizer_ranking_rule (rs : List Region) :
    (sortRegions rs).Pairwise (fun a b => normSortKey a ≤ normSortKey b)
    ∧ List.Perm (sortRegions rs) rs
    ∧ ∀ k : WithTop ℚ,
        (sortRegions rs).filter (fun r => decide (normSortKey r = k))
          = rs.filter (fun r => decide (normSortKey r = k)) :=
  ⟨List.sorted_insertionSort normRel rs, List.perm_insertionSort normRel rs,
    fun k => insertionSort_stable_filter normSortKey (fun _ _ => Iff.rfl) rs k⟩

/-- When a region's 50GB plan exists and has a nonzero price, the two
pipelines compute the same sort key. -/
theorem normSortKey_eq_querySortKey (r : Region)
    (h : ∀ p, find50GB r = some p → p.PriceInCNY ≠ 0) :
    normSortKey r = querySortKey "50GB" r := by
  unfold normSortKey querySortKey
  cases hf : find50GB r with
  | none =>
    unfold find50GB at hf
    rw [hf]
  | some p =>
    have hne : p.PriceInCNY ≠ 0 := h p hf
    unfold find50GB at hf
    rw [hf]
    dsimp only
    rw [if_neg hne]

/-- A region with a zero-priced 50GB tier, for the C8 counterexample. -/
def zeroTierRegion : Region := ⟨"ZZ", "Zeroton", "USD", [⟨"50GB", 0, 0⟩]⟩

/-- A region whose 50GB tier costs 3, for the C8 counterexample. -/
def threeTierRegion : Region := ⟨"TT", "Threeton", "USD", [⟨"50GB", 3, 3⟩]⟩

/-- C8 as stated is false: the Normalizer's comparator
(`?.PriceInCNY || Infinity`) treats a zero price as missing, while
`sortByPrice` (`planA ? planA.PriceInCNY : Infinity`) keeps it as 0, so
on a region with a zero-priced 50GB plan the two orderings differ. -/
theorem sort_rule_equivalence_counterexample :
    sortRegions [zeroTierRegion, threeTierRegion]
      = [threeTierRegion, zeroTierRegion]
    ∧ sortByPrice [zeroTierRegion, threeTierRegion] "50GB"
      = [zeroTierRegion, threeTierRegion]
    ∧ sortRegions [zeroTierRegion, threeTierRegion]
      ≠ sortByPrice [zeroTierRegion, threeTierRegion] "50GB" := by
  refine ⟨by decide, by decide, ?_⟩
  intro h
  rw [(by decide : sortRegions [zeroTierRegion, threeTierRegion]
      = [threeTierRegion, zeroTierRegion]),
    (by decide : sortByPrice [zeroTierRegion, threeTierRegion] "50GB"
      = [zeroTierRegion, threeTierRegion])] at h
  exact absurd h (by decide)

/-- C8, amended. On any region list in which no region has a 50GB plan
with `PriceInCNY = 0`, the Normalizer's dataset sort and the Query
Engine's `sortByPrice` at the benchmark tier produce identical orderings
(both are stable sorts ascending by the 50GB reference price with
infinity for a missing tier); they differ exactly on the falsy zero-price
case exhibited by the counterexample. -/
theorem sort_rule_equivalence (rs : List Region)
    (h : ∀ r ∈ rs, ∀ p, find50GB r = some p → p.PriceInCNY ≠ 0) :
    sortRegions rs = sortByPrice rs "50GB" := by
  have hl : ∀ a ∈ rs, ∀ b ∈ rs, normRel a b ↔ queryRel "50GB" (id a) (id b) := by
    intro a ha b hb
    show normSortKey a ≤ normSortKey b
      ↔ querySortKey "50GB" a ≤ querySortKey "50GB" b
    rw [normSortKey_eq_querySortKey a (h a ha), normSortKey_eq_querySortKey b (h b hb)]
  have hmap := List.map_insertionSort normRel (queryRel "50GB") id rs hl
  simpa using hmap

/-- Witness for C8: two regions with nonzero 50GB prices sort
identically in both pipelines. -/
theorem sort_rule_equivalence_witness :
    sortRegions [⟨"US", "United States", "USD", [⟨"50GB", 1, 7⟩]⟩,
        ⟨"CN", "China", "CNY", [⟨"50GB", 6, 6⟩]⟩]
      = sortByPrice [⟨"US", "United States", "USD", [⟨"50GB", 1, 7⟩]⟩,
        ⟨"CN", "China", "CNY", [⟨"50GB", 6, 6⟩]⟩] "50GB" := by
  apply sort_rule_equivalence
  intro r hr p hp
  rcases List.mem_cons.mp hr with rfl | hr
  · rw [(by rfl : find50GB (⟨"US", "United States", "USD", [⟨"50GB", 1, 7⟩]⟩ : Region)
        = some ⟨"50GB", 1, 7⟩)] at hp
    cases hp
    decide
  · rcases List.mem_cons.mp hr with rfl | hr
    · rw [(by rfl : find50GB (⟨"CN", "China", "CNY", [⟨"50GB", 6, 6⟩]⟩ : Region)
          = some ⟨"50GB", 6, 6⟩)] at hp
      cases hp
      decide
    · cases hr

/-- The query sort key is infinite exactly when the tier is missing. -/
theorem querySortKey_eq_top_iff (tier : String) (r : Region) :
    querySortKey tier r = ⊤ ↔ findTierPlan tier r = none := by
  unfold querySortKey
  cases hf : findTierPlan tier r with
  | none => simp
  | some p => simp

/-- In a list sorted by the query comparator, the regions offering the
tier form a prefix and the regions lacking it form the suffix. -/
theorem sorted_present_prefix (tier : String) :
    ∀ l : List Region, l.Pairwise (queryRel tier) →
    ∃ l₁ l₂, l = l₁ ++ l₂
      ∧ (∀ r ∈ l₁, findTierPlan tier r ≠ none)
      ∧ (∀ r ∈ l₂, findTierPlan tier r = none)
  | [], _ => ⟨[], [], rfl, by simp, by simp⟩
  | r :: rest, hp => by
    cases hf : findTierPlan tier r with
    | none =>
      refine ⟨[], r :: rest, rfl, by simp, ?_⟩
      intro x hx
      rcases List.mem_cons.mp hx with rfl | hx
      · exact hf
      · have hrel : queryRel tier r x := List.rel_of_pairwise_cons hp hx
        have htop : querySortKey tier r = ⊤ := (querySortKey_eq_top_iff tier r).mpr hf
        have hxtop : querySortKey tier x = ⊤ := top_le_iff.mp (htop ▸ hrel)
        exact (querySortKey_eq_top_iff tier x).mp hxtop
    | some p =>
      obtain ⟨l₁, l₂, heq, h₁, h₂⟩ := sorted_present_prefix tier rest hp.of_cons
      refine ⟨r :: l₁, l₂, by rw [List.cons_append, heq], ?_, h₂⟩
      intro x hx
      rcases List.mem_cons.mp hx with rfl | hx
      · rw [hf]
        intro contra
        cases contra
      · exact h₁ x hx

/-- Each emitted ranked item records a region that offers the tier, its
plan, and a rank that is its 1-based position in the traversed list. -/
theorem rankedAux_mem (tier : String) :
    ∀ (l : List Region) (i : ℕ) (x : Region × Plan × ℕ),
      x ∈ rankedAux tier i l →
      findTierPlan tier x.1 = some x.2.1 ∧ i < x.2.2
        ∧ l[x.2.2 - 1 - i]? = some x.1
  | [], _, x, hx => by simp [rankedAux] at hx
  | r :: rest, i, x, hx => by
    cases hf : findTierPlan tier r with
    | some p =>
      simp only [rankedAux, hf] at hx
      rcases List.mem_cons.mp hx with rfl | hx
      · refine ⟨hf, Nat.lt_succ_self i, ?_⟩
        have hi : i + 1 - 1 - i = 0 := by omega
        rw [hi]
        simp
      · obtain ⟨h1, h2, h3⟩ := rankedAux_mem tier rest (i + 1) x hx
        refine ⟨h1, by omega, ?_⟩
        have hi : x.2.2 - 1 - i = (x.2.2 - 1 - (i + 1)) + 1 := by omega
        rw [hi, List.getElem?_cons_succ]
        exact h3
    | none =>
      simp only [rankedAux, hf] at hx
      obtain ⟨h1, h2, h3⟩ := rankedAux_mem tier rest (i + 1) x hx
      refine ⟨h1, by omega, ?_⟩
      have hi : x.2.2 - 1 - i = (x.2.2 - 1 - (i + 1)) + 1 := by omega
      rw [hi, List.getElem?_cons_succ]
      exact h3

/-- Over a run of regions that all offer the tier, the emitted ranks are
the consecutive integers starting after the current index. -/
theorem rankedAux_all_present (tier : String) :
    ∀ (l : List Region) (i : ℕ), (∀ r ∈ l, findTierPlan tier r ≠ none) →
      (rankedAux tier i l).map (fun x => x.2.2) = List.range' (i + 1) l.length
  | [], i, _ => by simp [rankedAux]
  | r :: rest, i, h => by
    cases hf : findTierPlan tier r with
    | none => exact absurd hf (h r (List.mem_cons_self r rest))
    | some p =>
      simp only [rankedAux, hf, List.map_cons, List.length_cons]
      rw [rankedAux_all_present tier rest (i + 1)
        (fun x hx => h x (List.mem_cons_of_mem r hx)), List.range'_succ]

/-- Over a run of regions that all lack the tier, nothing is emitted. -/
theorem rankedAux_none (tier : String) :
    ∀ (l : List Region) (i : ℕ), (∀ r ∈ l, findTierPlan tier r = none) →
      rankedAux tier i l = []
  | [], _, _ => rfl
  | r :: rest, i, h => by
    simp only [rankedAux, h r (List.mem_cons_self r rest)]
    exact rankedAux_none tier rest (i + 1)
      (fun x hx => h x (List.mem_cons_of_mem r hx))

/-- The emission loop distributes over list concatenation, shifting the
index by the length of the first part. -/
theorem rankedAux_append (tier : String) :
    ∀ (l₁ l₂ : List Region) (i : ℕ),
      rankedAux tier i (l₁ ++ l₂)
        = rankedAux tier i l₁ ++ rankedAux tier (i + l₁.length) l₂
  | [], l₂, i => by simp [rankedAux]
  | r :: rest, l₂, i => by
    have harith : i + 1 + rest.length = i + (rest.length + 1) := by omega
    cases hf : findTierPlan tier r with
    | some p =>
      simp only [List.cons_append, rankedAux, hf, List.length_cons]
      rw [← harith]
      exact congrArg _ (rankedAux_append tier rest l₂ (i + 1))
    | none =>
      simp only [List.cons_append, rankedAux, hf, List.length_cons]
      rw [← harith]
      exact rankedAux_append tier rest l₂ (i + 1)

/-- C9. In the ranked query path, a region whose plan list lacks the
selected tier is omitted entirely (every emitted item carries a plan
found under the tier name), each emitted rank is the region's 1-based
position in the sorted filtered list, and — because missing-tier regions
sort last — the emitted ranks are exactly `1, 2, …, k` with `k` the
number of emitted items. -/
theorem ranked_output_spec (rs : List Region) (tier : String) :
    (∀ x ∈ rankedItems rs tier,
        findTierPlan tier x.1 = some x.2.1
        ∧ (sortByPrice rs tier)[x.2.2 - 1]? = some x.1)
    ∧ (rankedItems rs tier).map (fun x => x.2.2)
        = List.range' 1 (rankedItems rs tier).length := by
  constructor
  · intro x hx
    obtain ⟨h1, _, h3⟩ := rankedAux_mem tier (sortByPrice rs tier) 0 x hx
    refine ⟨h1, ?_⟩
    simpa using h3
  · obtain ⟨l₁, l₂, heq, h₁, h₂⟩ := sorted_present_prefix tier (sortByPrice rs tier)
      (List.sorted_insertionSort (queryRel tier) rs)
    unfold rankedItems
    rw [heq, rankedAux_append, rankedAux_none tier l₂ _ h₂, List.append_nil,
      rankedAux_all_present tier l₁ 0 h₁]
    have hlen := congrArg List.length (rankedAux_all_present tier l₁ 0 h₁)
    rw [List.length_map, List.length_range'] at hlen
    rw [hlen]

/-- Witness for C9: with one region lacking the tier and one offering it,
the emitted item is the offering region with rank 1, found at position 0
of the sorted list. -/
theorem ranked_output_witness :
    findTierPlan "50GB" (⟨"PP", "Pland", "USD", [⟨"50GB", 2, 2⟩]⟩ : Region)
      = some ⟨"50GB", 2, 2⟩
    ∧ (sortByPrice [⟨"NN", "Notier", "USD", []⟩,
        ⟨"PP", "Pland", "USD", [⟨"50GB", 2, 2⟩]⟩] "50GB")[0]?
      = some ⟨"PP", "Pland", "USD", [⟨"50GB", 2, 2⟩]⟩ := by
  have h := (ranked_output_spec
      [⟨"NN", "Notier", "USD", []⟩, ⟨"PP", "Pland", "USD", [⟨"50GB", 2, 2⟩]⟩]
      "50GB").1
    (⟨"PP", "Pland", "USD", [⟨"50GB", 2, 2⟩]⟩, ⟨"50GB", 2, 2⟩, 1) (by decide)
  simpa using h

end ICloudPricing
